import Mathlib

/-! Shallow embedding of the format-string engine in `src/StrFormat.cpp`
(namespace `fmt`): the single-pass template compiler (`ParseFormat` with its
helpers `typeFromChar`, `addFormatStr`, `parseArgDefPositional`,
`parseArgDefPerc`, `hasInstructionWithArgNo`), the evaluator (`Fmt::Eval`
with `validArgTypes`) and the `Format`/`FormatTemp` entry points.

Modelling conventions:
* C strings are `List Char`; the NUL terminator is the virtual character at
  index `length` (`peek` returns `Char.ofNat 0` there).  Reading at an index
  strictly beyond the terminator is undefined behaviour and is modelled as
  `CErr.strOob` (compiler) resp. `none` (evaluator / trimming).
* The scan loop of `ParseFormat` is modelled with explicit fuel
  (`CErr.noFuel` when exhausted) because one of its branches does not
  advance the cursor.
* `CrashIf(cond)` is a development-build assertion; release builds fall
  through.  It is modelled by the `assertFailed` flag (release semantics,
  with the firing recorded).
* The fixed `Inst instructions[32]` array: a write at index `>= 32` is an
  out-of-bounds store (undefined behaviour); it is modelled as the error
  `CErr.instOverflow af` where `af` records whether any assertion
  (in particular `addFormatStr`'s capacity `CrashIf`) had fired by then.
* 32-bit `int` arithmetic that matters (the `(int)arg.u.i` cast in `Eval`)
  is modelled with explicit wrapping on `Int`; the positional index
  accumulator `n` is kept as a mathematical `Int` (the C `int` overflows
  only for indices of ten or more digits, which no claim concerns).
-/

namespace fmt

/-- Modelled from the spec: the `Type` tag enum declared in `StrFormat.h`
(only its declaration is outside the excerpt; every use is in
`StrFormat.cpp`).  Kinds: `None, Char, Int, Float, Double, Str, WStr,
FormatStr, Any` (§3 of the spec: instruction kinds and argument tags). -/
inductive Ty where
  | None
  | Char
  | Int
  | Float
  | Double
  | Str
  | WStr
  | FormatStr
  | Any
deriving DecidableEq

/-- Modelled from the spec: the `Arg` tagged union declared in
`StrFormat.h` (§3: one immutable typed payload per instance).  The
floating payloads are represented by the text `%G` would produce and the
wide-string payload by its UTF-8 transcoding, since the engine only ever
converts them to text (floating-point and UTF-16 are outside the shallow
embedding and no claim inspects those payloads numerically). -/
inductive Arg where
  | aNone
  | aChar (c : Char)
  | aInt (i : Int)
  | aFloat (g : String)
  | aDouble (g : String)
  | aStr (s : String)
  | aWStr (s : String)
deriving DecidableEq

/-- The dynamic type tag `arg.t` of an `Arg`. -/
def argTy : Arg → Ty
  | .aNone => .None
  | .aChar _ => .Char
  | .aInt _ => .Int
  | .aFloat _ => .Float
  | .aDouble _ => .Double
  | .aStr _ => .Str
  | .aWStr _ => .WStr

/-- One formatting instruction (`struct Inst`): type tag, argument number
(`<0` for literal runs) and, for `Type::FormatStr`, the borrowed slice
`sv` of the template. -/
structure Inst where
  t : Ty
  argNo : Int
  sv : List Char
deriving DecidableEq

/-- Abnormal outcomes of compilation that the C code does not return as
values: fuel exhaustion (the scan loop failed to advance), a read past the
template's NUL terminator, and an out-of-bounds store into the fixed
32-entry instruction array (`instOverflow` records whether any `CrashIf`
assertion had fired by the time of the store). -/
inductive CErr where
  | noFuel
  | strOob
  | instOverflow (assertFailed : Bool)
deriving DecidableEq

/-- Mutable compiler state inside `ParseFormat`: the instruction list so
far, `currPercArgNo`, and whether any `CrashIf` has fired. -/
structure PState where
  insts : List Inst
  currPercArgNo : Int
  assertFailed : Bool
deriving DecidableEq

/-- Result of `ParseFormat` as recorded in the `Fmt` object: instruction
list, the returned flag (stored into `isOk` by `Fmt::Fmt`), and whether a
`CrashIf` fired during compilation. -/
structure Compiled where
  insts : List Inst
  ok : Bool
  assertFailed : Bool
deriving DecidableEq

/-- Read `s[i]` of a NUL-terminated C string: `some` of the character for
`i < length`, the NUL terminator at `i = length`, undefined behaviour
(`none`) beyond it. -/
def peek (t : List Char) (i : Nat) : Option Char :=
  if i < t.length then t.get? i
  else if i = t.length then some (Char.ofNat 0)
  else none

/-- Source `typeFromChar` (lines 34-49): maps a percent-directive letter to a
type; any other letter hits `CrashIf(true)` and returns `Type::None`
(second component records the assertion firing). -/
def typeFromChar (c : Char) : Ty × Bool :=
  if c = 'c' then (Ty.Char, false)
  else if c = 'd' then (Ty.Int, false)
  else if c = 'f' then (Ty.Float, false)
  else if c = 's' then (Ty.Str, false)
  else if c = 'v' then (Ty.Any, false)
  else (Ty.None, true)

/-- The slice `{s + start, pos - start}` of the template. -/
def sliceOf (t : List Char) (start pos : Nat) : List Char :=
  (t.drop start).take (pos - start)

/-- Source `addFormatStr` (lines 51-60): flush the pending literal run
`[start, pos)`.  A zero-length run is a no-op (before any capacity check);
otherwise `CrashIf(nInst >= 32)` fires and the store at index `nInst`
would be out of bounds when the list is full. -/
def addFormatStr (t : List Char) (start pos : Nat) (st : PState) :
    Except CErr PState :=
  if pos - start = 0 then .ok st
  else if 32 ≤ st.insts.length then .error (.instOverflow true)
  else .ok { st with
    insts := st.insts ++ [⟨Ty.FormatStr, -1, sliceOf t start pos⟩] }

/-- The unchecked store `instructions[nInst] = ...; ++nInst` shared by
`parseArgDefPositional` and `parseArgDefPerc`: neither function tests the
capacity, so a full list means an out-of-bounds store. -/
def emitArgInst (st : PState) (ty : Ty) (argNo : Int) : Except CErr PState :=
  if 32 ≤ st.insts.length then .error (.instOverflow st.assertFailed)
  else .ok { st with insts := st.insts ++ [⟨ty, argNo, []⟩] }

/-- The digit loop of `parseArgDefPositional` (lines 66-72):
`while (*s != '}') { CrashIf(!IsDigit(*s)); n = n*10 + (*s - '0'); ++s; }`.
Returns the accumulated `n`, the position just past `'}'`, and the
assertion flag.  Note the loop also consumes the NUL terminator (it is not
`'}'`) and then reads past it, which is `strOob`. -/
def parsePosLoop (t : List Char) :
    Nat → Nat → Int → Bool → Except CErr (Int × Nat × Bool)
  | 0, _, _, _ => .error .noFuel
  | fuel + 1, pos, n, af =>
    match peek t pos with
    | none => .error .strOob
    | some c =>
      if c = '}' then .ok (n, pos + 1, af)
      else parsePosLoop t fuel (pos + 1) (n * 10 + ((c.toNat : Int) - 48))
        (af || !c.isDigit)

/-- Source `parseArgDefPositional` (lines 63-77): parse `{digits}` starting at the
`'{'` at `pos`, then store an instruction `Type::Any` / `argNo = n` with no
capacity check.  Returns the new state and the position after `'}'`. -/
def parseArgDefPositional (t : List Char) (fuel pos : Nat) (st : PState) :
    Except CErr (PState × Nat) :=
  match parsePosLoop t fuel (pos + 1) 0 st.assertFailed with
  | .error e => .error e
  | .ok (n, posNew, af) =>
    match emitArgInst { st with assertFailed := af } Ty.Any n with
    | .error e => .error e
    | .ok stNew => .ok (stNew, posNew)

/-- Source `parseArgDefPerc` (lines 80-87): store an instruction whose type comes
from `typeFromChar(s[1])` and whose `argNo` is `currPercArgNo++`, with no
capacity check; the scan resumes at `s + 2`. -/
def parseArgDefPerc (t : List Char) (pos : Nat) (st : PState) :
    Except CErr (PState × Nat) :=
  let c2 := t.getD (pos + 1) (Char.ofNat 0)
  let tb := typeFromChar c2
  match emitArgInst { st with
      assertFailed := st.assertFailed || tb.2
      currPercArgNo := st.currPercArgNo + 1 } tb.1 st.currPercArgNo with
  | .error e => .error e
  | .ok stNew => .ok (stNew, pos + 2)

/-- Source `hasInstructionWithArgNo` (lines 89-96): some instruction (literals
included) has the given `argNo`. -/
def hasInstructionWithArgNo (insts : List Inst) (argNo : Int) : Bool :=
  insts.any fun i => i.argNo = argNo

/-- The `maxArgNo` computation of `ParseFormat` (lines 163-172): start from
`o.currArgNo` — which is set to `0` at the top of `ParseFormat` and never
incremented — and take the maximum over all non-`FormatStr` instructions'
`argNo`. -/
def computeMaxArgNo (insts : List Inst) : Int :=
  insts.foldl
    (fun m i => if i.t = Ty.FormatStr then m
      else if m < i.argNo then i.argNo else m) 0

/-- The post-scan coverage loop of `ParseFormat` (lines 177-183): every
`i` in `[0, maxArgNo]` must be referenced; the first miss fires
`CrashIf(!isOk)` and returns `false`. -/
def coverageOk (insts : List Inst) : Bool :=
  (List.range ((computeMaxArgNo insts).toNat + 1)).all fun i =>
    hasInstructionWithArgNo insts (i : Int)

/-- The scan loop of `ParseFormat` (lines 126-161) plus the post-scan
validation (lines 163-184).  `pos` is the cursor `fmt`, `start` the base of
the pending literal run.  Branches in source order: NUL exits the loop;
`'\'` consumes `\{` as an escape but otherwise `continue`s **without
advancing**; `'{'` flushes and parses a positional directive; `'%'`
handles `%%` then a percent directive; anything else just advances. -/
def scanLoop (t : List Char) :
    Nat → Nat → Nat → PState → Except CErr Compiled
  | 0, _, _, _ => .error .noFuel
  | fuel + 1, pos, start, st =>
    match peek t pos with
    | none => .error .strOob
    | some c =>
      if c = Char.ofNat 0 then
        match addFormatStr t start pos st with
        | .error e => .error e
        | .ok st1 =>
          let ok := coverageOk st1.insts
          .ok ⟨st1.insts, ok, st1.assertFailed || !ok⟩
      else if c = '\\' then
        if t.getD (pos + 1) (Char.ofNat 0) = '{' then
          match addFormatStr t start pos st with
          | .error e => .error e
          | .ok st1 => scanLoop t fuel (pos + 2) (pos + 1) st1
        else
          scanLoop t fuel pos start st
      else if c = '{' then
        match addFormatStr t start pos st with
        | .error e => .error e
        | .ok st1 =>
          match parseArgDefPositional t fuel pos st1 with
          | .error e => .error e
          | .ok (st2, posNew) => scanLoop t fuel posNew posNew st2
      else if c = '%' then
        if t.getD (pos + 1) (Char.ofNat 0) = '%' then
          match addFormatStr t start pos st with
          | .error e => .error e
          | .ok st1 => scanLoop t fuel (pos + 2) (pos + 1) st1
        else
          match addFormatStr t start pos st with
          | .error e => .error e
          | .ok st1 =>
            match parseArgDefPerc t pos st1 with
            | .error e => .error e
            | .ok (st2, posNew) => scanLoop t fuel posNew posNew st2
      else
        scanLoop t fuel (pos + 1) start st

/-- Source `ParseFormat` (lines 117-185) on a fresh `Fmt` object, as performed by
the constructor `Fmt::Fmt`. -/
def parseFormat (fuel : Nat) (t : List Char) : Except CErr Compiled :=
  scanLoop t fuel 0 0 ⟨[], 0, false⟩

/-- Source `validArgTypes` (lines 98-115): compatibility of an instruction's
declared type with an argument's dynamic type, as the literal if-chain of
the source. -/
def validArgTypes (instType argType : Ty) : Bool :=
  if instType = Ty.Any ∨ instType = Ty.FormatStr then true
  else if instType = Ty.Char then argType = Ty.Char
  else if instType = Ty.Int then argType = Ty.Int
  else if instType = Ty.Float then argType = Ty.Float ∨ argType = Ty.Double
  else if instType = Ty.Str then argType = Ty.Str ∨ argType = Ty.WStr
  else false

/-- The C cast `(int)arg.u.i` from `i64` to 32-bit `int` in `Eval`
(line 227): wrap into `[-2^31, 2^31)`. -/
def toInt32 (i : Int) : Int :=
  (i + 2147483648) % 4294967296 - 2147483648

/-- The text appended for one successfully type-checked argument
(the `switch (arg.t)` of `Eval`, lines 221-247): a `Char` is appended as
itself; an `Int` is printed with `"%d"` after the `(int)` cast; floats and
wide strings were modelled by their rendered text (see `Arg`); a `None`
argument matches no `case` and appends nothing. -/
def renderArg : Arg → List Char
  | .aNone => []
  | .aChar c => [c]
  | .aInt i => (toString (toInt32 i)).toList
  | .aFloat g => g.toList
  | .aDouble g => g.toList
  | .aStr s => s.toList
  | .aWStr s => s.toList

/-- The instruction loop of `Fmt::Eval` (lines 197-248), with the output
accumulator `res` threaded through.  Per instruction, in source order: the
out-of-range check `argNo >= nArgs` (applied to every instruction,
literals included) sets `isOk = false`; a `FormatStr` instruction appends
its slice; otherwise `args[argNo]` is fetched — a negative `argNo` would
read before the array, which is undefined behaviour (`none`) — and
`validArgTypes` decides between appending the rendered argument and
failing.  Returns `(returned flag, res)`. -/
def evalLoop (args : List Arg) : List Inst → List Char →
    Option (Bool × List Char)
  | [], res => some (true, res)
  | inst :: rest, res =>
    if inst.argNo ≥ (args.length : Int) then some (false, res)
    else if inst.t = Ty.FormatStr then evalLoop args rest (res ++ inst.sv)
    else if inst.argNo < 0 then none
    else
      match args.get? inst.argNo.toNat with
      | none => none
      | some arg =>
        if validArgTypes inst.t (argTy arg) then
          evalLoop args rest (res ++ renderArg arg)
        else some (false, res)

/-- The relevant state of a `Fmt` object between calls: the `isOk` flag,
the compiled instructions and the output accumulator `res` (which `Eval`
does **not** reset). -/
structure FmtS where
  isOk : Bool
  insts : List Inst
  res : List Char
deriving DecidableEq

/-- Source `Fmt::Eval` (lines 191-250): refuse immediately when `isOk` is already
false; otherwise run the instruction loop, store the resulting flag into
`isOk` and return it.  `none` propagates undefined behaviour. -/
def fmtEval (f : FmtS) (args : List Arg) : Option (FmtS × Bool) :=
  if f.isOk = true then
    match evalLoop args f.insts f.res with
    | none => none
    | some (ok, res) => some (⟨ok, f.insts, res⟩, ok)
  else some (f, false)

/-- The trailing-`None` trimming loop shared by `Format` (lines 262-265)
and `FormatTemp` (lines 282-285):
`while (nArgs >= 0 && args[nArgs - 1]->t == Type::None) nArgs--;`.
The argument is the current `nArgs`; the guard `nArgs >= 0` still holds at
`nArgs = 0`, where the loop reads `args[-1]` — before the start of the
array — which is undefined behaviour (`none`). -/
def trimNone (args : List Arg) : Nat → Option Nat
  | 0 => none
  | n + 1 =>
    if argTy (args.getD n Arg.aNone) = Ty.None then trimNone args n
    else some (n + 1)

/-- The six-argument entry point `Format` (lines 252-279): collect the six
arguments, trim trailing `None`s, return a copy of the template when no
arguments remain, otherwise compile and evaluate.  Outer `none` is
undefined behaviour (or a scan that never terminates); inner `none` is the
`nullptr` failure return. -/
def Format (fuel : Nat) (t : List Char) (a1 a2 a3 a4 a5 a6 : Arg) :
    Option (Option (List Char)) :=
  let args := [a1, a2, a3, a4, a5, a6]
  match trimNone args 6 with
  | none => none
  | some nArgs =>
    if nArgs = 0 then some (some t)
    else
      match parseFormat fuel t with
      | .error _ => none
      | .ok c =>
        match fmtEval ⟨c.ok, c.insts, []⟩ (args.take nArgs) with
        | none => none
        | some (f, ok) => some (if ok then some f.res else none)

/-- Spec-side rendering of the coverage rule exactly as the claim states
it: `maxArgNo` is the maximum `argIndex` over all **non-literal**
instructions (a range `[0, maxArgNo]` that is empty when there is no
non-literal instruction), and `i ≤ maxArgNo` is expressed as "some
non-literal instruction has `argNo ≥ i`".  To be compared with the
compiled code's check, which starts the maximum at `currArgNo = 0`. -/
def specCoverageStated (insts : List Inst) : Prop :=
  ∀ i : Int, 0 ≤ i →
    (∃ inst ∈ insts, inst.t ≠ Ty.FormatStr ∧ i ≤ inst.argNo) →
    hasInstructionWithArgNo insts i = true

/-- A template of 33 positional directives: its 33rd instruction store is
the out-of-bounds write past `instructions[31]`. -/
def tOverflow33 : List Char :=
  (String.join (List.replicate 33 "{0}")).toList

/-- The invariant of C9 over an instruction list: every `FormatStr`
instruction carries the sentinel `argNo = -1` and a non-empty slice. -/
def litInv (insts : List Inst) : Prop :=
  ∀ inst ∈ insts, inst.t = Ty.FormatStr → inst.argNo = -1 ∧ inst.sv ≠ []

end fmt

namespace fmt

/-- C1: the claim says `Format` returns any directive-free template
unchanged for every argument list.  In fact compiling `"abc"` produces a
single literal instruction, the coverage check (whose `maxArgNo` starts at
`currArgNo = 0`) then demands an instruction with `argNo = 0`, fails, and
fires `CrashIf(!isOk)`; `Format("abc", Int(5))` therefore returns
`nullptr` instead of `"abc"`. -/
theorem c1_directive_free_template_not_returned :
    parseFormat 64 "abc".toList =
      .ok ⟨[⟨Ty.FormatStr, -1, ['a', 'b', 'c']⟩], false, true⟩ ∧
    Format 64 "abc".toList (Arg.aInt 5) .aNone .aNone .aNone .aNone .aNone =
      some Option.none := ⟨rfl, rfl⟩

/-- C2: the claim says compilation terminates on every template,
including a bare trailing backslash.  The scan's backslash branch executes
`continue` without advancing `fmt` when the next character is not `'{'`,
so on the template consisting of a single backslash the scan repeats the
same state forever: no amount of fuel completes it. -/
theorem c2_lone_backslash_scan_diverges :
    ∀ fuel : Nat, parseFormat fuel ['\\'] = .error CErr.noFuel := by
  intro fuel
  show scanLoop ['\\'] fuel 0 0 ⟨[], 0, false⟩ = .error CErr.noFuel
  induction fuel with
  | zero => rfl
  | succ n ih => exact ih

/-- C3: the claim says every emission path detects the 32-instruction
capacity excess as an explicit error.  Compiling 33 positional directives
reaches the 33rd store in `parseArgDefPositional` — which has no capacity
check at all — with the array already full and with no `CrashIf` having
fired on any path (`addFormatStr` returns before its capacity assertion
when the pending run is empty): an undetected out-of-bounds write. -/
theorem c3_positional_store_unchecked_overflow :
    parseFormat 256 tOverflow33 = .error (CErr.instOverflow false) := by
  rfl

/-- C5: the claim says an `Int` argument is rendered as the decimal
representation of its 64-bit value.  `Eval` casts the `i64` payload to a
32-bit `int` before `str::BufFmt(buf, _, "%d", ...)` (the source's own
TODO notes the mismatch), so the value `4294967296 = 2^32` is printed as
`"0"`, not `"4294967296"`. -/
theorem c5_int64_truncated_to_int32 :
    Format 64 "%d".toList (Arg.aInt 4294967296)
      .aNone .aNone .aNone .aNone .aNone = some (some ['0']) ∧
    (toString (4294967296 : Int)).toList ≠ ['0'] := by
  exact ⟨rfl, by decide⟩

/-- C6: the claim says an unknown letter after `%` makes compilation fail
with `isOk = false`.  In fact `typeFromChar` fires `CrashIf(true)` (a
development-build crash — raised, not flagged) and in release returns
`Type::None`; the scan then completes, the coverage check passes (the
`Type::None` instruction has `argNo = 0`), and the program compiles with
`isOk = true`, so evaluation is not refused at entry. -/
theorem c6_unknown_percent_letter_compiles_with_isOk_true :
    parseFormat 64 "%x".toList = .ok ⟨[⟨Ty.None, 0, []⟩], true, true⟩ := by
  rfl

/-- C10: the claim says the trailing-`None` trimming loop only reads
argument positions at index `≥ 0`.  With all six arguments `None` the
guard `nArgs >= 0` still holds once `nArgs` has reached `0`, and the loop
then reads `args[0 - 1] = args[-1]`, before the start of the array. -/
theorem c10_all_none_args_read_before_array :
    trimNone [Arg.aNone, .aNone, .aNone, .aNone, .aNone, .aNone] 6 =
      Option.none := by
  rfl

/-- The evaluation loop only ever appends to the accumulator, and what it
appends does not depend on the accumulator's prior content: running with
initial content `res` is running with an empty accumulator and prefixing
`res` to the result. -/
theorem evalLoop_shift (args : List Arg) (insts : List Inst)
    (res : List Char) :
    evalLoop args insts res =
      (evalLoop args insts []).map fun p => (p.1, res ++ p.2) := by
  induction insts generalizing res with
  | nil => simp [evalLoop]
  | cons inst rest ih =>
    simp only [evalLoop]
    by_cases h1 : inst.argNo ≥ (args.length : Int)
    · simp [h1]
    · simp only [if_neg h1]
      by_cases h2 : inst.t = Ty.FormatStr
      · simp only [if_pos h2]
        rw [ih (res ++ inst.sv), ih ([] ++ inst.sv)]
        cases evalLoop args rest [] <;>
          simp [List.append_assoc]
      · simp only [if_neg h2]
        by_cases h3 : inst.argNo < 0
        · simp [h3]
        · simp only [if_neg h3]
          cases hg : args.get? inst.argNo.toNat with
          | none => simp
          | some arg =>
            by_cases h4 : validArgTypes inst.t (argTy arg) = true
            · simp only [if_pos h4]
              rw [ih (res ++ renderArg arg), ih ([] ++ renderArg arg)]
              cases evalLoop args rest [] <;>
                simp [List.append_assoc]
            · simp [h4]

/-- C4 counterexample: the claim says a second `Eval` on the same program
with the same argument values produces output text identical to the first
run's.  With the program compiled from `"%d"` and the argument `Int(5)`,
the first run leaves `res = "5"`; `Eval` never resets `res`, so the
second run leaves `res = "55"`, not `"5"`. -/
theorem c4_reeval_output_differs :
    parseFormat 64 "%d".toList = .ok ⟨[⟨Ty.Int, 0, []⟩], true, false⟩ ∧
    fmtEval ⟨true, [⟨Ty.Int, 0, []⟩], []⟩ [Arg.aInt 5] =
      some (⟨true, [⟨Ty.Int, 0, []⟩], ['5']⟩, true) ∧
    fmtEval ⟨true, [⟨Ty.Int, 0, []⟩], ['5']⟩ [Arg.aInt 5] =
      some (⟨true, [⟨Ty.Int, 0, []⟩], ['5', '5']⟩, true) ∧
    (['5', '5'] : List Char) ≠ ['5'] := by
  exact ⟨rfl, rfl, rfl, by decide⟩

/-- C4 (amended): evaluation is deterministic and uses no hidden mutable
counters, so re-running `Eval` on the same program with the same argument
values appends exactly the same text `out` both times; but since `Eval`
does not reset the accumulator, the buffer after the second run is
`res ++ out ++ out` — the first run's output concatenated with itself —
rather than text identical to the first run's output. -/
theorem c4_reeval_appends_identical_text (f : FmtS) (args : List Arg)
    (out : List Char) (hok : f.isOk = true)
    (h : evalLoop args f.insts [] = some (true, out)) :
    fmtEval f args = some (⟨true, f.insts, f.res ++ out⟩, true) ∧
    fmtEval ⟨true, f.insts, f.res ++ out⟩ args =
      some (⟨true, f.insts, f.res ++ out ++ out⟩, true) := by
  have h1 : evalLoop args f.insts f.res = some (true, f.res ++ out) := by
    rw [evalLoop_shift, h]
    rfl
  have h2 : evalLoop args f.insts (f.res ++ out) =
      some (true, f.res ++ out ++ out) := by
    rw [evalLoop_shift, h]
    rfl
  constructor
  · simp [fmtEval, hok, h1]
  · simp [fmtEval, h2]

/-- C4 witness: the amended statement instantiated at the program
compiled from `"%d"` and the argument list `[Int(5)]`. -/
theorem c4_reeval_appends_identical_text_witness :
    fmtEval ⟨true, [⟨Ty.Int, 0, []⟩], []⟩ [Arg.aInt 5] =
      some (⟨true, [⟨Ty.Int, 0, []⟩], [] ++ ['5']⟩, true) ∧
    fmtEval ⟨true, [⟨Ty.Int, 0, []⟩], [] ++ ['5']⟩ [Arg.aInt 5] =
      some (⟨true, [⟨Ty.Int, 0, []⟩], [] ++ ['5'] ++ ['5']⟩, true) :=
  c4_reeval_appends_identical_text ⟨true, [⟨Ty.Int, 0, []⟩], []⟩
    [Arg.aInt 5] ['5'] rfl rfl

/-- A failed type check in the evaluation loop returns immediately with
the flag false and the accumulator untouched, whatever instructions
follow. -/
theorem evalLoop_mismatch (t : Ty) (argNo : Int) (sv : List Char)
    (a : Arg) (rest : List Inst) (args : List Arg) (res : List Char)
    (ht : t ≠ Ty.FormatStr) (h0 : 0 ≤ argNo)
    (hlt : ¬argNo ≥ (args.length : Int))
    (hget : args.get? argNo.toNat = some a)
    (hv : validArgTypes t (argTy a) = false) :
    evalLoop args (⟨t, argNo, sv⟩ :: rest) res = some (false, res) := by
  have hget' : args[argNo.toNat]? = some a := by
    rw [← List.get?_eq_getElem?]
    exact hget
  simp [evalLoop, hlt, ht, h0, hget', hv, Int.not_lt.mpr h0]

/-- C8: for every non-literal instruction type and every argument, the
evaluator's type check (`validArgTypes`) succeeds exactly for the pairs
the claim lists — `Any` with anything, `Char`/`Char`, `Int`/`Int`,
`Float` with `Float` or `Double`, `Str` with `Str` or `WStr` — and on any
other pair the evaluation loop fails immediately with the flag false and
nothing appended (no coercion). -/
theorem c8_type_check_characterization (t : Ty) (a : Arg)
    (ht : t ≠ Ty.FormatStr) :
    (validArgTypes t (argTy a) = true ↔
      (t = Ty.Any ∨
       (t = Ty.Char ∧ argTy a = Ty.Char) ∨
       (t = Ty.Int ∧ argTy a = Ty.Int) ∨
       (t = Ty.Float ∧ (argTy a = Ty.Float ∨ argTy a = Ty.Double)) ∨
       (t = Ty.Str ∧ (argTy a = Ty.Str ∨ argTy a = Ty.WStr)))) ∧
    (validArgTypes t (argTy a) = false →
      ∀ (argNo : Int) (sv : List Char) (rest : List Inst)
        (args : List Arg) (res : List Char),
        0 ≤ argNo → ¬argNo ≥ (args.length : Int) →
        args.get? argNo.toNat = some a →
        evalLoop args (⟨t, argNo, sv⟩ :: rest) res = some (false, res)) := by
  constructor
  · cases t <;> cases a <;> simp_all [validArgTypes, argTy]
  · intro hv argNo sv rest args res h0 hlt hget
    exact evalLoop_mismatch t argNo sv a rest args res ht h0 hlt hget hv

/-- C8 witness: a `%d` (`Int`) instruction bound to a `String` argument:
the check rejects the pair and evaluation fails without coercing. -/
theorem c8_type_check_characterization_witness :
    Ty.Int ≠ Ty.FormatStr ∧
    ((validArgTypes Ty.Int (argTy (Arg.aStr "x")) = true ↔
      (Ty.Int = Ty.Any ∨
       (Ty.Int = Ty.Char ∧ argTy (Arg.aStr "x") = Ty.Char) ∨
       (Ty.Int = Ty.Int ∧ argTy (Arg.aStr "x") = Ty.Int) ∨
       (Ty.Int = Ty.Float ∧
         (argTy (Arg.aStr "x") = Ty.Float ∨
          argTy (Arg.aStr "x") = Ty.Double)) ∨
       (Ty.Int = Ty.Str ∧
         (argTy (Arg.aStr "x") = Ty.Str ∨
          argTy (Arg.aStr "x") = Ty.WStr)))) ∧
     (validArgTypes Ty.Int (argTy (Arg.aStr "x")) = false →
      ∀ (argNo : Int) (sv : List Char) (rest : List Inst)
        (args : List Arg) (res : List Char),
        0 ≤ argNo → ¬argNo ≥ (args.length : Int) →
        args.get? argNo.toNat = some (Arg.aStr "x") →
        evalLoop args (⟨Ty.Int, argNo, sv⟩ :: rest) res =
          some (false, res))) :=
  ⟨by decide,
   c8_type_check_characterization Ty.Int (Arg.aStr "x") (by decide)⟩

/-- Every `.ok` result of the scan loop carries exactly the coverage
check's verdict as its `ok` flag (the only `.ok` exit is the NUL exit,
which builds the result from `coverageOk`). -/
theorem scanLoop_ok_shape (t : List Char) :
    ∀ (fuel pos start : Nat) (st : PState) (c : Compiled),
      scanLoop t fuel pos start st = .ok c → c.ok = coverageOk c.insts := by
  intro fuel
  induction fuel with
  | zero =>
    intro pos start st c h
    simp [scanLoop] at h
  | succ n ih =>
    intro pos start st c h
    simp only [scanLoop] at h
    cases hp : peek t pos with
    | none => simp [hp] at h
    | some ch =>
      simp only [hp] at h
      split_ifs at h with h1 h2 h3 h4 h5 h6
      -- NUL exit: the ok result is built from coverageOk
      case _ =>
        cases ha : addFormatStr t start pos st with
        | error e => simp [ha] at h
        | ok st1 =>
          simp only [ha] at h
          cases h
          rfl
      -- backslash-brace escape
      case _ =>
        cases ha : addFormatStr t start pos st with
        | error e => simp [ha] at h
        | ok st1 =>
          simp only [ha] at h
          exact ih _ _ _ _ h
      -- backslash not followed by brace: no advance
      case _ =>
        exact ih _ _ _ _ h
      -- positional directive
      case _ =>
        cases ha : addFormatStr t start pos st with
        | error e => simp [ha] at h
        | ok st1 =>
          simp only [ha] at h
          cases hb : parseArgDefPositional t n pos st1 with
          | error e => simp [hb] at h
          | ok p =>
            obtain ⟨st2, posNew⟩ := p
            simp only [hb] at h
            exact ih _ _ _ _ h
      -- literal percent
      case _ =>
        cases ha : addFormatStr t start pos st with
        | error e => simp [ha] at h
        | ok st1 =>
          simp only [ha] at h
          exact ih _ _ _ _ h
      -- percent directive
      case _ =>
        cases ha : addFormatStr t start pos st with
        | error e => simp [ha] at h
        | ok st1 =>
          simp only [ha] at h
          cases hb : parseArgDefPerc t pos st1 with
          | error e => simp [hb] at h
          | ok p =>
            obtain ⟨st2, posNew⟩ := p
            simp only [hb] at h
            exact ih _ _ _ _ h
      -- ordinary character
      case _ =>
        exact ih _ _ _ _ h

/-- The code's `maxArgNo` never goes below its starting value
`currArgNo = 0`. -/
theorem computeMaxArgNo_nonneg (insts : List Inst) :
    0 ≤ computeMaxArgNo insts := by
  unfold computeMaxArgNo
  have hgen : ∀ (l : List Inst) (m : Int),
      m ≤ l.foldl (fun m i => if i.t = Ty.FormatStr then m
        else if m < i.argNo then i.argNo else m) m := by
    intro l
    induction l with
    | nil =>
      intro m
      simp
    | cons i l ihl =>
      intro m
      simp only [List.foldl_cons]
      refine le_trans ?_ (ihl _)
      split_ifs <;> omega
  exact hgen insts 0

/-- The coverage loop over `0 ≤ i ≤ maxArgNo`, restated as a universally
quantified property over the integers. -/
theorem coverageOk_iff (insts : List Inst) :
    coverageOk insts = true ↔
      ∀ i : Int, 0 ≤ i → i ≤ computeMaxArgNo insts →
        hasInstructionWithArgNo insts i = true := by
  unfold coverageOk
  rw [List.all_eq_true]
  constructor
  · intro hall i h0 hle
    have hmem : i.toNat ∈ List.range ((computeMaxArgNo insts).toNat + 1) := by
      rw [List.mem_range]
      omega
    have hx := hall _ hmem
    rwa [Int.toNat_of_nonneg h0] at hx
  · intro hcov x hx
    rw [List.mem_range] at hx
    have hM := computeMaxArgNo_nonneg insts
    apply hcov
    · exact Int.ofNat_nonneg x
    · omega

/-- C7 counterexample: the claim's `maxArgNo` is the maximum over
**non-literal** instructions, so for a template with no directives the
range `[0, maxArgNo]` is empty and the claim predicts successful
compilation.  The code starts `maxArgNo` at `currArgNo = 0`, so compiling
the directive-free template `"x"` fails the coverage check at `i = 0`:
the claimed equivalence is false there. -/
theorem c7_stated_iff_fails_on_literal_template :
    parseFormat 64 ['x'] = .ok ⟨[⟨Ty.FormatStr, -1, ['x']⟩], false, true⟩ ∧
    specCoverageStated [⟨Ty.FormatStr, -1, ['x']⟩] ∧
    ¬((Compiled.ok ⟨[⟨Ty.FormatStr, -1, ['x']⟩], false, true⟩ = true) ↔
      specCoverageStated [⟨Ty.FormatStr, -1, ['x']⟩]) := by
  have hs : specCoverageStated [⟨Ty.FormatStr, -1, ['x']⟩] := by
    intro i h0 hex
    rcases hex with ⟨inst, hmem, hne, _⟩
    simp only [List.mem_singleton] at hmem
    subst hmem
    exact absurd rfl hne
  exact ⟨rfl, hs, fun hiff => absurd (hiff.mpr hs) (by decide)⟩

/-- C7 (amended): compilation succeeds (`ParseFormat` returns true) if
and only if every integer `i` in `[0, max(0, maxArgNo)]` is referenced by
at least one instruction, where the range always contains `0` because the
code starts its maximum at `currArgNo = 0` (so directive-free templates
fail, and `"{0}{2}"` fails because `i = 1` is unreferenced); duplicates
are allowed. -/
theorem c7_compile_ok_iff_coverage_from_zero (fuel : Nat) (t : List Char)
    (c : Compiled) (h : parseFormat fuel t = .ok c) :
    c.ok = true ↔
      ∀ i : Int, 0 ≤ i → i ≤ computeMaxArgNo c.insts →
        hasInstructionWithArgNo c.insts i = true := by
  rw [scanLoop_ok_shape t fuel 0 0 ⟨[], 0, false⟩ c h]
  exact coverageOk_iff c.insts

/-- C7 witness: the amended equivalence at the compiled template
`"{0}{1}"`, whose coverage check succeeds. -/
theorem c7_compile_ok_iff_coverage_from_zero_witness :
    parseFormat 64 "{0}{1}".toList =
      .ok ⟨[⟨Ty.Any, 0, []⟩, ⟨Ty.Any, 1, []⟩], true, false⟩ ∧
    ((Compiled.ok ⟨[⟨Ty.Any, 0, []⟩, ⟨Ty.Any, 1, []⟩], true, false⟩ = true) ↔
      ∀ i : Int, 0 ≤ i →
        i ≤ computeMaxArgNo [⟨Ty.Any, 0, []⟩, ⟨Ty.Any, 1, []⟩] →
        hasInstructionWithArgNo [⟨Ty.Any, 0, []⟩, ⟨Ty.Any, 1, []⟩] i =
          true) :=
  ⟨rfl, c7_compile_ok_iff_coverage_from_zero 64 "{0}{1}".toList
    ⟨[⟨Ty.Any, 0, []⟩, ⟨Ty.Any, 1, []⟩], true, false⟩ rfl⟩

/-- A successful read at `pos` means `pos` is at most the terminator's
index. -/
theorem peek_isSome_le (t : List Char) (pos : Nat) (ch : Char)
    (h : peek t pos = some ch) : pos ≤ t.length := by
  unfold peek at h
  split_ifs at h <;> omega

/-- Flushing a literal run preserves the C9 invariant: the run is only
stored when non-empty, with `argNo = -1`, and its slice `[start, pos)` is
non-empty whenever `start ≤ pos ≤ length` and the run has positive
length. -/
theorem addFormatStr_litInv (t : List Char) (start pos : Nat)
    (st st' : PState) (hsp : start ≤ pos) (hpt : pos ≤ t.length)
    (hinv : litInv st.insts)
    (h : addFormatStr t start pos st = .ok st') : litInv st'.insts := by
  unfold addFormatStr at h
  split_ifs at h with hz hcap
  · cases h
    exact hinv
  · injection h with h
    subst h
    intro inst hmem hts
    simp only [List.mem_append, List.mem_singleton] at hmem
    rcases hmem with hm | hm
    · exact hinv inst hm hts
    · subst hm
      refine ⟨rfl, ?_⟩
      have hlen : 0 < (sliceOf t start pos).length := by
        unfold sliceOf
        rw [List.length_take, List.length_drop]
        omega
      exact List.ne_nil_of_length_pos hlen

/-- Storing a directive instruction of a non-`FormatStr` type preserves
the C9 invariant. -/
theorem emitArgInst_litInv (st st' : PState) (ty : Ty) (argNo : Int)
    (hty : ty ≠ Ty.FormatStr) (hinv : litInv st.insts)
    (h : emitArgInst st ty argNo = .ok st') : litInv st'.insts := by
  unfold emitArgInst at h
  split_ifs at h
  injection h with h
  subst h
  intro inst hmem hts
  simp only [List.mem_append, List.mem_singleton] at hmem
  rcases hmem with hm | hm
  · exact hinv inst hm hts
  · subst hm
    exact absurd hts hty

/-- No percent-directive letter maps to the literal instruction type. -/
theorem typeFromChar_fst_ne (c : Char) :
    (typeFromChar c).1 ≠ Ty.FormatStr := by
  unfold typeFromChar
  split_ifs <;> decide

/-- Parsing a positional directive preserves the C9 invariant (it stores
a `Type::Any` instruction). -/
theorem parseArgDefPositional_litInv (t : List Char) (fuel pos : Nat)
    (st st2 : PState) (posNew : Nat) (hinv : litInv st.insts)
    (h : parseArgDefPositional t fuel pos st = .ok (st2, posNew)) :
    litInv st2.insts := by
  unfold parseArgDefPositional at h
  cases hb : parsePosLoop t fuel (pos + 1) 0 st.assertFailed with
  | error e => simp [hb] at h
  | ok q =>
    obtain ⟨nn, posN, af⟩ := q
    simp only [hb] at h
    cases hc : emitArgInst { st with assertFailed := af } Ty.Any nn with
    | error e => simp [hc] at h
    | ok stE =>
      simp only [hc] at h
      cases h
      exact emitArgInst_litInv { st with assertFailed := af } st2 Ty.Any nn
        (by decide) hinv hc

/-- Parsing a percent directive preserves the C9 invariant (its type
comes from `typeFromChar`, never `FormatStr`). -/
theorem parseArgDefPerc_litInv (t : List Char) (pos : Nat)
    (st st2 : PState) (posNew : Nat) (hinv : litInv st.insts)
    (h : parseArgDefPerc t pos st = .ok (st2, posNew)) :
    litInv st2.insts := by
  simp only [parseArgDefPerc] at h
  cases hc : emitArgInst { st with
      assertFailed := st.assertFailed ||
        (typeFromChar (t.getD (pos + 1) (Char.ofNat 0))).2
      currPercArgNo := st.currPercArgNo + 1 }
      (typeFromChar (t.getD (pos + 1) (Char.ofNat 0))).1
      st.currPercArgNo with
  | error e =>
    simp only [hc] at h
    cases h
  | ok stE =>
    simp only [hc] at h
    cases h
    exact emitArgInst_litInv { st with
        assertFailed := st.assertFailed ||
          (typeFromChar (t.getD (pos + 1) (Char.ofNat 0))).2
        currPercArgNo := st.currPercArgNo + 1 } st2
      (typeFromChar (t.getD (pos + 1) (Char.ofNat 0))).1
      st.currPercArgNo (typeFromChar_fst_ne _) hinv hc

/-- The scan maintains the C9 invariant from any state with
`start ≤ pos` (every flush then happens with `start ≤ pos ≤ length`, so
stored slices are non-empty). -/
theorem scanLoop_litInv (t : List Char) :
    ∀ (fuel pos start : Nat) (st : PState) (c : Compiled),
      start ≤ pos → litInv st.insts →
      scanLoop t fuel pos start st = .ok c → litInv c.insts := by
  intro fuel
  induction fuel with
  | zero =>
    intro pos start st c _ _ h
    simp [scanLoop] at h
  | succ n ih =>
    intro pos start st c hsp hinv h
    simp only [scanLoop] at h
    cases hp : peek t pos with
    | none => simp [hp] at h
    | some ch =>
      have hpt : pos ≤ t.length := peek_isSome_le t pos ch hp
      simp only [hp] at h
      split_ifs at h with h1 h2 h3 h4 h5 h6
      -- NUL exit
      case _ =>
        cases ha : addFormatStr t start pos st with
        | error e => simp [ha] at h
        | ok st1 =>
          simp only [ha] at h
          cases h
          exact addFormatStr_litInv t start pos st st1 hsp hpt hinv ha
      -- backslash-brace escape
      case _ =>
        cases ha : addFormatStr t start pos st with
        | error e => simp [ha] at h
        | ok st1 =>
          simp only [ha] at h
          exact ih (pos + 2) (pos + 1) st1 c (by omega)
            (addFormatStr_litInv t start pos st st1 hsp hpt hinv ha) h
      -- backslash without brace: no advance
      case _ =>
        exact ih pos start st c hsp hinv h
      -- positional directive
      case _ =>
        cases ha : addFormatStr t start pos st with
        | error e => simp [ha] at h
        | ok st1 =>
          simp only [ha] at h
          cases hb : parseArgDefPositional t n pos st1 with
          | error e => simp [hb] at h
          | ok p =>
            obtain ⟨st2, posNew⟩ := p
            simp only [hb] at h
            exact ih posNew posNew st2 c (le_refl _)
              (parseArgDefPositional_litInv t n pos st1 st2 posNew
                (addFormatStr_litInv t start pos st st1 hsp hpt hinv ha)
                hb) h
      -- literal percent
      case _ =>
        cases ha : addFormatStr t start pos st with
        | error e => simp [ha] at h
        | ok st1 =>
          simp only [ha] at h
          exact ih (pos + 2) (pos + 1) st1 c (by omega)
            (addFormatStr_litInv t start pos st st1 hsp hpt hinv ha) h
      -- percent directive
      case _ =>
        cases ha : addFormatStr t start pos st with
        | error e => simp [ha] at h
        | ok st1 =>
          simp only [ha] at h
          cases hb : parseArgDefPerc t pos st1 with
          | error e => simp [hb] at h
          | ok p =>
            obtain ⟨st2, posNew⟩ := p
            simp only [hb] at h
            exact ih posNew posNew st2 c (le_refl _)
              (parseArgDefPerc_litInv t pos st1 st2 posNew
                (addFormatStr_litInv t start pos st st1 hsp hpt hinv ha)
                hb) h
      -- ordinary character
      case _ =>
        exact ih (pos + 1) start st c (by omega) hinv h

/-- C9: every `FormatStr` instruction of a compiled program has
`argNo = -1` and a non-empty literal slice (an empty flush stores
nothing), and therefore the evaluator's out-of-range check
`argNo >= nArgs` — applied to every instruction — never fires on a
`FormatStr` instruction when at least one argument is supplied. -/
theorem c9_formatstr_sentinel_and_nonempty (fuel : Nat) (t : List Char)
    (c : Compiled) (h : parseFormat fuel t = .ok c) :
    ∀ inst ∈ c.insts, inst.t = Ty.FormatStr →
      inst.argNo = -1 ∧ inst.sv ≠ [] ∧
      ∀ args : List Arg, 1 ≤ args.length →
        ¬(inst.argNo ≥ (args.length : Int)) := by
  intro inst hmem hts
  have hi := scanLoop_litInv t fuel 0 0 ⟨[], 0, false⟩ c (le_refl 0)
    (by intro i hmem'; simp at hmem') h inst hmem hts
  refine ⟨hi.1, hi.2, ?_⟩
  intro args hlen
  rw [hi.1]
  omega

/-- C9 witness: the literal instruction of the compiled template
`"a%d"`. -/
theorem c9_formatstr_sentinel_and_nonempty_witness :
    (⟨Ty.FormatStr, -1, ['a']⟩ : Inst).argNo = -1 ∧
    (⟨Ty.FormatStr, -1, ['a']⟩ : Inst).sv ≠ [] ∧
    ∀ args : List Arg, 1 ≤ args.length →
      ¬((⟨Ty.FormatStr, -1, ['a']⟩ : Inst).argNo ≥ (args.length : Int)) :=
  c9_formatstr_sentinel_and_nonempty 64 "a%d".toList
    ⟨[⟨Ty.FormatStr, -1, ['a']⟩, ⟨Ty.Int, 0, []⟩], true, false⟩ rfl
    ⟨Ty.FormatStr, -1, ['a']⟩ (by simp) rfl

end fmt
